import Mathlib

/-!
Verification development for the `GraphAttention` module of the GSIFN
repository (file `src/MMSA-GsiT/models/custom/GSIT/modules/GraphAttentions/
GraphMultiheadAttention.py`).

Embedding conventions:
* tensor values are rationals; a `Vec` is one embedding vector (or one row
  of attention scores), a `Mat` is a 2-d tensor as a list of rows, and a
  `Seq3` is a 3-d tensor of shape (sequence, batch, embedding), the layout
  the source's forward pass uses ("Time x Batch x Channel");
* the library primitives `F.softmax` (and the cast pair `.float`/
  `.type_as`, which is the identity on exact rationals) are out-of-scope
  collaborators per the spec, so the per-row softmax is a parameter `sm`
  of the forward computation; `F.dropout` with `training=False` is the
  identity, and the module is modelled in evaluation mode;
* Python slicing `x[a:b]` clamps at the length, which is `(drop a).take
  (b - a)` on lists; integer `//` is truncating division, `Nat` division;
* `data_ptr` equality is buffer identity, which has no counterpart on pure
  values; the two booleans it produces (`qkv_same`, `kv_same`) are taken
  as explicit inputs of the model, and the development proves that the
  projection paths they select agree on equal inputs;
* fallible steps (the `assert` statements, the `.float()` attribute error
  on a Python list, and the final `view`) are modelled with
  `Except String`;
* `self.scaling = self.head_dim ** -0.5` is an irrational constant; it is
  kept as an unconstrained rational field of the module, since no verified
  property depends on its numeric value.
-/

abbrev Vec := List ℚ

abbrev Mat := List Vec

abbrev Seq3 := List (List Vec)

/-- Dot product of two rows, the scalar kernel of `F.linear` and `bmm`. -/
def dot (x y : Vec) : ℚ :=
  (List.zipWith (· * ·) x y).sum

/-- Optional bias addition of `F.linear`. -/
def addBias (l : Vec) : Option Vec → Vec
  | none => l
  | some b => List.zipWith (· + ·) l b

/-- Model of `F.linear(input, weight, bias)` on a (seq, batch, embed)
tensor: `input @ weight.T + bias` applied to the last dimension. -/
def linearT (x : Seq3) (W : Mat) (b : Option Vec) : Seq3 :=
  x.map (fun p => p.map (fun vec => addBias (W.map (fun wrow => dot wrow vec)) b))

/-- Python row slice `W[start:stop, :]` (`stop = none` is an open end),
with Python's clamping semantics. -/
def sliceRows (W : Mat) (start : ℕ) (stop : Option ℕ) : Mat :=
  match stop with
  | none => W.drop start
  | some e => (W.drop start).take (e - start)

/-- Python slice `b[start:stop]` on a vector. -/
def sliceVecR (b : Vec) (start : ℕ) (stop : Option ℕ) : Vec :=
  match stop with
  | none => b.drop start
  | some e => (b.drop start).take (e - start)

/-- The `.size()` triple of a (seq, batch, embed) tensor, read off the
nested-list representation. -/
def size3 (x : Seq3) : ℕ × ℕ × ℕ :=
  (x.length, (x.getD 0 []).length, ((x.getD 0 []).getD 0 []).length)

/-- Length of the innermost (embedding) dimension, used by `torch.chunk`
to compute its chunk size. -/
def innerLen (x : Seq3) : ℕ :=
  ((x.getD 0 []).getD 0 []).length

/-- Chunk size of `torch.chunk(k)` on a dimension of size `n`:
`ceil(n / k)`. -/
def chunkSize (n k : ℕ) : ℕ :=
  (n + k - 1) / k

/-- The learned state of a `GraphAttention` module (constructor lines
11-35 of the source).  `attn_dropout` is retained for fidelity although
the model works in evaluation mode where `F.dropout` is the identity. -/
structure GraphAttention where
  embed_dim : ℕ
  num_heads : ℕ
  attn_dropout : ℚ
  head_dim : ℕ
  scaling : ℚ
  in_proj_weight : Mat
  in_proj_bias : Option Vec
  out_proj_weight : Mat
  out_proj_bias : Option Vec
  bias_k : Option Vec
  bias_v : Option Vec
  add_zero_attn : Bool

/-- Model of `GraphAttention.__init__` (lines 11-35): stores the sizes,
computes `head_dim = embed_dim // num_heads` with truncating division and
fails on the constructor assertion `head_dim * num_heads == embed_dim`.
The randomly initialised parameter tensors (`xavier` initialisations of
`reset_parameters`) are taken as arguments; `reset_parameters` fixes the
biases of the input and output projections to zero when `bias` is set. -/
def GraphAttention.make (embed_dim num_heads : ℕ) (attn_dropout : ℚ)
    (bias add_bias_kv add_zero_attn : Bool) (scaling : ℚ)
    (in_w out_w : Mat) (bk bv : Vec) : Except String GraphAttention :=
  let head_dim := embed_dim / num_heads
  if head_dim * num_heads = embed_dim then
    Except.ok
      { embed_dim := embed_dim
        num_heads := num_heads
        attn_dropout := attn_dropout
        head_dim := head_dim
        scaling := scaling
        in_proj_weight := in_w
        in_proj_bias := if bias then some (List.replicate (3 * embed_dim) 0) else none
        out_proj_weight := out_w
        out_proj_bias := if bias then some (List.replicate embed_dim 0) else none
        bias_k := if add_bias_kv then some bk else none
        bias_v := if add_bias_kv then some bv else none
        add_zero_attn := add_zero_attn }
  else Except.error "embed_dim must be divisible by num_heads"

/-- Model of `GraphAttention._in_proj` (lines 196-202): `F.linear` with
the `[start:end]` slice of the combined projection weight and bias.  The
`weight`/`bias` keyword overrides are never used by the in-file callers
and are omitted. -/
def GraphAttention.inProjSlice (M : GraphAttention) (input : Seq3)
    (start : ℕ) (stop : Option ℕ) : Seq3 :=
  linearT input (sliceRows M.in_proj_weight start stop)
    (M.in_proj_bias.map (fun b => sliceVecR b start stop))

/-- Model of `in_proj_qkv` (lines 181-182): one fused projection chunked
into three along the last dimension (`torch.chunk(3, dim=-1)`). -/
def GraphAttention.in_proj_qkv (M : GraphAttention) (query : Seq3) :
    Seq3 × Seq3 × Seq3 :=
  let full := M.inProjSlice query 0 none
  let c := chunkSize (innerLen full) 3
  (full.map (fun p => p.map (fun w => w.take c)),
   full.map (fun p => p.map (fun w => (w.drop c).take c)),
   full.map (fun p => p.map (fun w => w.drop (2 * c))))

/-- Model of `in_proj_kv` (lines 184-185). -/
def GraphAttention.in_proj_kv (M : GraphAttention) (key : Seq3) :
    Seq3 × Seq3 :=
  let full := M.inProjSlice key M.embed_dim none
  let c := chunkSize (innerLen full) 2
  (full.map (fun p => p.map (fun w => w.take c)),
   full.map (fun p => p.map (fun w => w.drop c)))

/-- Model of `in_proj_q` (lines 187-188). -/
def GraphAttention.in_proj_q (M : GraphAttention) (query : Seq3) : Seq3 :=
  M.inProjSlice query 0 (some M.embed_dim)

/-- Model of `in_proj_k` (lines 190-191). -/
def GraphAttention.in_proj_k (M : GraphAttention) (key : Seq3) : Seq3 :=
  M.inProjSlice key M.embed_dim (some (2 * M.embed_dim))

/-- Model of `in_proj_v` (lines 193-194). -/
def GraphAttention.in_proj_v (M : GraphAttention) (value : Seq3) : Seq3 :=
  M.inProjSlice value (2 * M.embed_dim) none

/-- The projection dispatch of `forward` (lines 69-84).  `qkv_same` and
`kv_same` stand for the `data_ptr` identity tests of lines 59-60.  The
`key_nodes is None` sub-branch of the source is unrepresentable for a
non-optional tensor argument and is dropped. -/
def GraphAttention.projectQKV (M : GraphAttention) (qkv_same kv_same : Bool)
    (query key value : Seq3) : Seq3 × Seq3 × Seq3 :=
  if qkv_same then M.in_proj_qkv query
  else if kv_same then
    let kv := M.in_proj_kv key
    (M.in_proj_q query, kv.1, kv.2)
  else (M.in_proj_q query, M.in_proj_k key, M.in_proj_v value)

/-- Elementwise `q * self.scaling` (line 85). -/
def scaleSeq (s : ℚ) (x : Seq3) : Seq3 :=
  x.map (fun p => p.map (fun vec => vec.map (fun z => z * s)))

/-- Model of `view(len, bsz * num_heads, head_dim).transpose(0, 1)`
(lines 94-98): the result is a batch of `bsz * H` matrices; matrix
`b * H + h` holds, at row `t`, the `h`-th `head_dim`-slice of the
embedding of batch element `b` at sequence position `t`. -/
def reshapeHeads (H hd bsz : ℕ) (x : Seq3) : List Mat :=
  (List.range (bsz * H)).map (fun i =>
    x.map (fun p => ((p.getD (i / H) []).drop ((i % H) * hd)).take hd))

/-- Batched sequence-dimension slice `x[:, a:b]` on a batch of matrices. -/
def sliceB (x : List Mat) (s : ℕ × ℕ) : List Mat :=
  x.map (fun m => (m.drop s.1).take (s.2 - s.1))

/-- One batch element of `torch.bmm(q, k.transpose(1, 2))`:
`A @ B.T`. -/
def matMulT (A B : Mat) : Mat :=
  A.map (fun r => B.map (fun br => dot r br))

/-- One batch element of `torch.bmm(aw, v)` where `v` is a tensor with
`c` columns (the column count is part of the tensor shape even when the
row count is zero, in which case `bmm` yields zeros). -/
def matMulC (c : ℕ) (A B : Mat) : Mat :=
  A.map (fun r => (List.range c).map (fun j => dot r (B.map (fun br => br.getD j 0))))

/-- Batched `bmm(q, k.transpose(1, 2))`. -/
def bmmT (x y : List Mat) : List Mat :=
  List.zipWith matMulT x y

/-- Batched `bmm(aw, v)` with `c` value columns. -/
def bmmC (c : ℕ) (x y : List Mat) : List Mat :=
  List.zipWith (matMulC c) x y

/-- Row-wise application of a function to every matrix of a batch, the
shape of `F.softmax(w.float(), dim=-1).type_as(w)` on each listed score
tensor (lines 152-155). -/
def mapRows (f : Vec → Vec) (x : List Mat) : List Mat :=
  x.map (fun m => m.map f)

/-- The direction policy on raw scores (lines 110-144): for each of the
three query segments, `bmm` against the key slice chosen by
`direction`. -/
def segScores (direction : Option String) (s1 s2 s3 : ℕ × ℕ)
    (q k : List Mat) : List Mat × List Mat × List Mat :=
  if direction = some "forward" then
    (bmmT (sliceB q s1) (sliceB k s2),
     bmmT (sliceB q s2) (sliceB k s3),
     bmmT (sliceB q s3) (sliceB k s1))
  else if direction = some "backward" then
    (bmmT (sliceB q s1) (sliceB k s3),
     bmmT (sliceB q s2) (sliceB k s1),
     bmmT (sliceB q s3) (sliceB k s2))
  else
    (bmmT (sliceB q s1) (sliceB k s1),
     bmmT (sliceB q s2) (sliceB k s2),
     bmmT (sliceB q s3) (sliceB k s3))

/-- The direction policy on attention weights (lines 161-172): each pair
is multiplied by the value slice of the key segment of that pair. -/
def segOutputs (direction : Option String) (hd : ℕ) (s1 s2 s3 : ℕ × ℕ)
    (aw : List Mat × List Mat × List Mat) (v : List Mat) :
    List Mat × List Mat × List Mat :=
  if direction = some "forward" then
    (bmmC hd aw.1 (sliceB v s2),
     bmmC hd aw.2.1 (sliceB v s3),
     bmmC hd aw.2.2 (sliceB v s1))
  else if direction = some "backward" then
    (bmmC hd aw.1 (sliceB v s3),
     bmmC hd aw.2.1 (sliceB v s1),
     bmmC hd aw.2.2 (sliceB v s2))
  else
    (bmmC hd aw.1 (sliceB v s1),
     bmmC hd aw.2.1 (sliceB v s2),
     bmmC hd aw.2.2 (sliceB v s3))

/-- `torch.concat([o1, o2, o3], dim=1)` (line 174): per batch element,
the three row blocks are appended in query-segment order. -/
def concat3 (x y z : List Mat) : List Mat :=
  List.zipWith (· ++ ·) (List.zipWith (· ++ ·) x y) z

/-- Element count of a batch of matrices, the quantity `view` checks. -/
def numel (mats : List Mat) : ℕ :=
  (mats.map (fun m => (m.map List.length).sum)).sum

/-- Model of `attn.transpose(0, 1).contiguous().view(tgt_len, bsz,
embed_dim)` (line 176): fails exactly when the element count does not
match, and otherwise rebuilds the (seq, batch, embed) layout by undoing
`reshapeHeads`. -/
def unreshapeHeads (H hd bsz tgt_len : ℕ) (mats : List Mat) : Option Seq3 :=
  if numel mats = tgt_len * bsz * (H * hd) then
    some ((List.range tgt_len).map (fun t =>
      (List.range bsz).map (fun b =>
        ((List.range H).map (fun h => (mats.getD (b * H + h) []).getD t [])).flatten)))
  else none

/-- Appending one zero column to a 2-d mask, the `torch.cat` of lines 92
and 107. -/
def extendCol (em : Mat) : Mat :=
  em.map (fun row => row ++ [0])

/-- Lines 59-172 of `GraphAttention.forward`: the checks, projections,
head reshape, optional sentinel and zero-attention rows, the direction
policy, the (parameterised) softmax stage and the value multiplication,
returning the three per-segment output blocks.  `F.dropout` in
evaluation mode is the identity and is not represented.  The `src_len`
local of lines 100-103 is dead after its own computation and is not
represented.  When `mask_fixer` is supplied, line 149 calls `.float()`
on `attn_weights`, which at that point is a Python list, so the call
fails with an attribute error. -/
def GraphAttention.forwardBlocks (M : GraphAttention) (sm : Vec → Vec)
    (qkv_same kv_same : Bool)
    (query_nodes key_nodes value_nodes : Seq3)
    (edge_mask : Option Mat) (seq_split : ℕ × ℕ × ℕ)
    (mask_fixer : Option Mat) (direction : Option String) :
    Except String (List Mat × List Mat × List Mat) :=
  match size3 query_nodes with
  | (_tgt_len, bsz, embed_dim) =>
    if embed_dim = M.embed_dim then
      if size3 key_nodes = size3 value_nodes then
        let qkv := M.projectQKV qkv_same kv_same query_nodes key_nodes value_nodes
        let q0 := scaleSeq M.scaling qkv.1
        let rest := fun (k0 v0 : Seq3) =>
          let _em1 := if M.bias_k.isSome then edge_mask.map extendCol else edge_mask
          let q := reshapeHeads M.num_heads M.head_dim bsz q0
          let k1 := reshapeHeads M.num_heads M.head_dim bsz k0
          let v1 := reshapeHeads M.num_heads M.head_dim bsz v0
          let k2 := if M.add_zero_attn then k1.map (fun m => m ++ [List.replicate M.head_dim 0]) else k1
          let v2 := if M.add_zero_attn then v1.map (fun m => m ++ [List.replicate M.head_dim 0]) else v1
          let _em2 := if M.add_zero_attn then _em1.map extendCol else _em1
          let t := seq_split.1
          let vl := seq_split.2.1
          let al := seq_split.2.2
          let s1 := (0, t)
          let s2 := (t, t + vl)
          let s3 := (t + vl, t + vl + al)
          let aw := segScores direction s1 s2 s3 q k2
          if mask_fixer.isSome then
            Except.error "AttributeError: list object has no attribute float"
          else
            Except.ok (segOutputs direction M.head_dim s1 s2 s3
              (mapRows sm aw.1, mapRows sm aw.2.1, mapRows sm aw.2.2) v2)
        match M.bias_k, M.bias_v with
        | some bk, some bv =>
            rest (qkv.2.1 ++ [List.replicate bsz bk]) (qkv.2.2 ++ [List.replicate bsz bv])
        | some _, none => Except.error "assert: self.bias_v is not None"
        | none, _ => rest qkv.2.1 qkv.2.2
      else Except.error "assert: key_nodes.size() == value_nodes.size()"
    else Except.error "assert: embed_dim == self.embed_dim"

/-- Model of `GraphAttention.forward` (lines 48-179): the per-segment
blocks, concatenated in query-segment order, reshaped back to (seq,
batch, embed) and passed through the output projection; the result is
returned together with the `(None, None)` placeholder pair of
line 179. -/
def GraphAttention.forward (M : GraphAttention) (sm : Vec → Vec)
    (qkv_same kv_same : Bool)
    (query_nodes key_nodes value_nodes : Seq3)
    (edge_mask : Option Mat) (seq_split : ℕ × ℕ × ℕ)
    (mask_fixer : Option Mat) (direction : Option String) :
    Except String (Seq3 × (Option Mat × Option Mat)) :=
  match M.forwardBlocks sm qkv_same kv_same query_nodes key_nodes value_nodes
      edge_mask seq_split mask_fixer direction with
  | Except.error e => Except.error e
  | Except.ok bl =>
    let attn := concat3 bl.1 bl.2.1 bl.2.2
    match size3 query_nodes with
    | (tgt_len, bsz, _) =>
      match unreshapeHeads M.num_heads M.head_dim bsz tgt_len attn with
      | none => Except.error "RuntimeError: shape mismatch for view"
      | some attn2 =>
          Except.ok (linearT attn2 M.out_proj_weight M.out_proj_bias, (none, none))

/-- Whether an `Except` value is a success. -/
def okB {α : Type} : Except String α → Bool
  | Except.ok _ => true
  | Except.error _ => false

/-! Shape predicates.  Torch tensors are rectangular; these predicates
express rectangularity of the nested-list representations. -/

/-- A batch of matrices with `n` elements, each having `r` rows. -/
def BatchRows (x : List Mat) (n r : ℕ) : Prop :=
  x.length = n ∧ ∀ m ∈ x, m.length = r

/-- A batch of matrices with `n` elements of `r` rows and `c` columns. -/
def BatchShape (x : List Mat) (n r c : ℕ) : Prop :=
  BatchRows x n r ∧ ∀ m ∈ x, ∀ row ∈ m, row.length = c

/-- A rectangular (seq, batch, embed) tensor of the given shape. -/
def HasShape (x : Seq3) (s b e : ℕ) : Prop :=
  x.length = s ∧ ∀ p ∈ x, p.length = b ∧ ∀ r ∈ p, r.length = e

/-- An optional vector of a given length (absent counts as valid). -/
def OptLen (o : Option Vec) (n : ℕ) : Prop :=
  ∀ bb ∈ o, bb.length = n

instance (x : List Mat) (n r : ℕ) : Decidable (BatchRows x n r) := by
  unfold BatchRows; infer_instance

instance (x : List Mat) (n r c : ℕ) : Decidable (BatchShape x n r c) := by
  unfold BatchShape BatchRows; infer_instance

instance (x : Seq3) (s b e : ℕ) : Decidable (HasShape x s b e) := by
  unfold HasShape; infer_instance

instance (o : Option Vec) (n : ℕ) : Decidable (OptLen o n) := by
  unfold OptLen
  cases o with
  | none => exact isTrue (by simp)
  | some b => exact decidable_of_iff (b.length = n) (by simp)

/-- Well-formedness of a module state, as established by the constructor
and `reset_parameters`: the head partition is exact and all parameter
tensors have the sizes allocated in `__init__`. -/
def GraphAttention.WF (M : GraphAttention) : Prop :=
  M.head_dim * M.num_heads = M.embed_dim ∧
  M.in_proj_weight.length = 3 * M.embed_dim ∧
  OptLen M.in_proj_bias (3 * M.embed_dim) ∧
  M.out_proj_weight.length = M.embed_dim ∧
  OptLen M.out_proj_bias M.embed_dim ∧
  (M.bias_k.isSome ↔ M.bias_v.isSome)

instance (M : GraphAttention) : Decidable M.WF := by
  unfold GraphAttention.WF; infer_instance

/-! Generic list helpers. -/

lemma mem_zipWith_imp {α β γ : Type} {f : α → β → γ} {l : List α}
    {l' : List β} {z : γ} (h : z ∈ List.zipWith f l l') :
    ∃ x ∈ l, ∃ y ∈ l', z = f x y := by
  induction l generalizing l' with
  | nil => simp at h
  | cons a t ih =>
    cases l' with
    | nil => simp at h
    | cons b t' =>
      simp only [List.zipWith_cons_cons, List.mem_cons] at h
      rcases h with h | h
      · exact ⟨a, List.mem_cons_self a t, b, List.mem_cons_self b t', h⟩
      · obtain ⟨x, hx, y, hy, hz⟩ := ih h
        exact ⟨x, List.mem_cons_of_mem a hx, y, List.mem_cons_of_mem b hy, hz⟩

lemma sum_map_const_of {α : Type} {l : List α} {f : α → ℕ} {k : ℕ}
    (h : ∀ x ∈ l, f x = k) : (l.map f).sum = l.length * k := by
  induction l with
  | nil => simp
  | cons a t ih =>
    have ha := h a (by simp)
    have ht := ih (fun x hx => h x (by simp [hx]))
    simp [ha, ht, Nat.succ_mul, Nat.add_comm]

lemma slice_take_eq {α : Type} (m : List α) (n a b : ℕ)
    (hb : b ≤ n) :
    (m.drop a).take (b - a) = ((m.take n).drop a).take (b - a) := by
  rw [List.drop_take]
  rw [List.take_take]
  congr 1
  omega

lemma slice_eq_of_take_eq {α : Type} {m₁ m₂ : List α} {n : ℕ}
    (h : m₁.take n = m₂.take n) (a b : ℕ) (hb : b ≤ n) :
    (m₁.drop a).take (b - a) = (m₂.drop a).take (b - a) := by
  rw [slice_take_eq m₁ n a b hb, slice_take_eq m₂ n a b hb, h]

/-! Shape lemmas for the primitive operations. -/

lemma linearT_shape {x : Seq3} {W : Mat} {o : Option Vec} {s b : ℕ}
    (hx1 : x.length = s) (hx2 : ∀ p ∈ x, p.length = b)
    (hob : OptLen o W.length) :
    HasShape (linearT x W o) s b W.length := by
  refine ⟨by simp [linearT, hx1], ?_⟩
  intro p hp
  simp only [linearT, List.mem_map] at hp
  obtain ⟨p0, hp0, rfl⟩ := hp
  refine ⟨by simp [hx2 p0 hp0], ?_⟩
  intro r hr
  simp only [List.mem_map] at hr
  obtain ⟨vec, _, rfl⟩ := hr
  cases o with
  | none => simp [addBias]
  | some bb =>
    have := hob bb (by simp)
    simp [addBias, this]

lemma linearT_length (x : Seq3) (W : Mat) (ob : Option Vec) :
    (linearT x W ob).length = x.length := by
  simp [linearT]

lemma scaleSeq_shape {x : Seq3} {s b e : ℕ} (c : ℚ)
    (hx : HasShape x s b e) : HasShape (scaleSeq c x) s b e := by
  obtain ⟨h1, h2⟩ := hx
  refine ⟨by simp [scaleSeq, h1], ?_⟩
  intro p hp
  simp only [scaleSeq, List.mem_map] at hp
  obtain ⟨p0, hp0, rfl⟩ := hp
  obtain ⟨hp1, hp2⟩ := h2 p0 hp0
  refine ⟨by simp [hp1], ?_⟩
  intro r hr
  simp only [List.mem_map] at hr
  obtain ⟨r0, hr0, rfl⟩ := hr
  simp [hp2 r0 hr0]

lemma scaleSeq_length (c : ℚ) (x : Seq3) :
    (scaleSeq c x).length = x.length := by
  simp [scaleSeq]

lemma size3_of_hasShape {x : Seq3} {s b e : ℕ} (hx : HasShape x s b e)
    (hs : 0 < s) (hb : 0 < b) : size3 x = (s, b, e) := by
  obtain ⟨h1, h2⟩ := hx
  cases x with
  | nil => simp at h1; omega
  | cons p tl =>
    obtain ⟨hb1, hb2⟩ := h2 p (List.mem_cons_self p tl)
    cases p with
    | nil => simp at hb1; omega
    | cons r tl2 =>
      have hr := hb2 r (List.mem_cons_self r tl2)
      simp [size3, List.getD, List.getElem?_cons_zero, h1, hb1, hr]

lemma mapInner_take_shape {x : Seq3} {s b e : ℕ} (hx : HasShape x s b e)
    {c : ℕ} (hc : c ≤ e) :
    HasShape (x.map (fun p => p.map (fun w => w.take c))) s b c := by
  obtain ⟨h1, h2⟩ := hx
  refine ⟨by simp [h1], ?_⟩
  intro p hp
  simp only [List.mem_map] at hp
  obtain ⟨p0, hp0, rfl⟩ := hp
  obtain ⟨hp1, hp2⟩ := h2 p0 hp0
  refine ⟨by simp [hp1], ?_⟩
  intro r hr
  simp only [List.mem_map] at hr
  obtain ⟨r0, hr0, rfl⟩ := hr
  simp [List.length_take, hp2 r0 hr0]
  omega

lemma mapInner_dropTake_shape {x : Seq3} {s b e : ℕ} (hx : HasShape x s b e)
    {c₁ c : ℕ} (hc : c₁ + c ≤ e) :
    HasShape (x.map (fun p => p.map (fun w => (w.drop c₁).take c))) s b c := by
  obtain ⟨h1, h2⟩ := hx
  refine ⟨by simp [h1], ?_⟩
  intro p hp
  simp only [List.mem_map] at hp
  obtain ⟨p0, hp0, rfl⟩ := hp
  obtain ⟨hp1, hp2⟩ := h2 p0 hp0
  refine ⟨by simp [hp1], ?_⟩
  intro r hr
  simp only [List.mem_map] at hr
  obtain ⟨r0, hr0, rfl⟩ := hr
  simp [List.length_take, List.length_drop, hp2 r0 hr0]
  omega

lemma mapInner_drop_shape {x : Seq3} {s b e : ℕ} (hx : HasShape x s b e)
    (c₁ : ℕ) :
    HasShape (x.map (fun p => p.map (fun w => w.drop c₁))) s b (e - c₁) := by
  obtain ⟨h1, h2⟩ := hx
  refine ⟨by simp [h1], ?_⟩
  intro p hp
  simp only [List.mem_map] at hp
  obtain ⟨p0, hp0, rfl⟩ := hp
  obtain ⟨hp1, hp2⟩ := h2 p0 hp0
  refine ⟨by simp [hp1], ?_⟩
  intro r hr
  simp only [List.mem_map] at hr
  obtain ⟨r0, hr0, rfl⟩ := hr
  simp [List.length_drop, hp2 r0 hr0]

lemma inProjSlice_shape {M : GraphAttention} {x : Seq3} {s b L : ℕ}
    (start : ℕ) (stop : Option ℕ)
    (hW : M.in_proj_weight.length = L) (hb : OptLen M.in_proj_bias L)
    (hx1 : x.length = s) (hx2 : ∀ p ∈ x, p.length = b) :
    HasShape (M.inProjSlice x start stop) s b
      ((sliceRows M.in_proj_weight start stop).length) := by
  apply linearT_shape hx1 hx2
  intro bb hbb
  cases hob : M.in_proj_bias with
  | none => simp [hob] at hbb
  | some bb0 =>
    have hlen := hb bb0 (by simp [hob])
    simp only [hob, Option.map_some', Option.mem_def, Option.some.injEq] at hbb
    rw [← hbb]
    cases stop with
    | none => simp [sliceVecR, sliceRows, hlen, hW]
    | some e => simp [sliceVecR, sliceRows, List.length_take, List.length_drop, hlen, hW]

lemma innerLen_eq_of_hasShape {x : Seq3} {s b e : ℕ} (hx : HasShape x s b e)
    (hs : 0 < s) (hb : 0 < b) : innerLen x = e := by
  have h := size3_of_hasShape hx hs hb
  have : (size3 x).2.2 = e := by rw [h]
  simpa [size3, innerLen] using this

lemma in_proj_q_shape {M : GraphAttention} {x : Seq3} {s b : ℕ}
    (hW : M.in_proj_weight.length = 3 * M.embed_dim)
    (hb : OptLen M.in_proj_bias (3 * M.embed_dim))
    (hx1 : x.length = s) (hx2 : ∀ p ∈ x, p.length = b) :
    HasShape (M.in_proj_q x) s b M.embed_dim := by
  have h := inProjSlice_shape 0 (some M.embed_dim) hW hb hx1 hx2
  have hlen : (sliceRows M.in_proj_weight 0 (some M.embed_dim)).length = M.embed_dim := by
    simp [sliceRows, List.length_take, List.length_drop, hW]
    omega
  rw [hlen] at h
  exact h

lemma in_proj_qkv_fst_shape {M : GraphAttention} {x : Seq3} {s b e : ℕ}
    (hW : M.in_proj_weight.length = 3 * M.embed_dim)
    (hb : OptLen M.in_proj_bias (3 * M.embed_dim))
    (hx : HasShape x s b e) (hs : 0 < s) (hb0 : 0 < b) :
    HasShape (M.in_proj_qkv x).1 s b M.embed_dim := by
  have hfull := inProjSlice_shape 0 none hW hb hx.1 (fun p hp => (hx.2 p hp).1)
  have hlen : (sliceRows M.in_proj_weight 0 none).length = 3 * M.embed_dim := by
    simp [sliceRows, hW]
  rw [hlen] at hfull
  have hinner : innerLen (M.inProjSlice x 0 none) = 3 * M.embed_dim :=
    innerLen_eq_of_hasShape hfull hs hb0
  have hc : chunkSize (3 * M.embed_dim) 3 = M.embed_dim := by
    simp [chunkSize]
    omega
  show HasShape ((M.inProjSlice x 0 none).map
    (fun p => p.map (fun w => w.take (chunkSize (innerLen (M.inProjSlice x 0 none)) 3)))) s b M.embed_dim
  rw [hinner, hc]
  exact mapInner_take_shape hfull (by omega)

lemma projectQKV_fst_shape {M : GraphAttention} {query key value : Seq3}
    {s b e : ℕ} (f1 f2 : Bool)
    (hW : M.in_proj_weight.length = 3 * M.embed_dim)
    (hb : OptLen M.in_proj_bias (3 * M.embed_dim))
    (hq : HasShape query s b e) (hs : 0 < s) (hb0 : 0 < b) :
    HasShape (M.projectQKV f1 f2 query key value).1 s b M.embed_dim := by
  unfold GraphAttention.projectQKV
  cases f1 with
  | true =>
    simp only [if_pos]
    exact in_proj_qkv_fst_shape hW hb hq hs hb0
  | false =>
    cases f2 with
    | true =>
      simp only [Bool.false_eq_true, if_false, if_pos]
      exact in_proj_q_shape hW hb hq.1 (fun p hp => (hq.2 p hp).1)
    | false =>
      simp only [Bool.false_eq_true, if_false]
      exact in_proj_q_shape hW hb hq.1 (fun p hp => (hq.2 p hp).1)

lemma reshapeHeads_length (H hd bsz : ℕ) (x : Seq3) :
    (reshapeHeads H hd bsz x).length = bsz * H := by
  simp [reshapeHeads]

lemma reshapeHeads_shape {x : Seq3} {s b H hd : ℕ}
    (hx : HasShape x s b (hd * H)) :
    BatchShape (reshapeHeads H hd b x) (b * H) s hd := by
  obtain ⟨h1, h2⟩ := hx
  refine ⟨⟨by simp [reshapeHeads], ?_⟩, ?_⟩
  · intro m hm
    simp only [reshapeHeads, List.mem_map] at hm
    obtain ⟨i, _, rfl⟩ := hm
    simp [h1]
  · intro m hm row hrow
    simp only [reshapeHeads, List.mem_map] at hm
    obtain ⟨i, hi, rfl⟩ := hm
    simp only [List.mem_range] at hi
    simp only [List.mem_map] at hrow
    obtain ⟨p, hp, rfl⟩ := hrow
    obtain ⟨hpb, hpe⟩ := h2 p hp
    have hH : 0 < H := by
      rcases Nat.eq_zero_or_pos H with h | h
      · subst h; simp at hi
      · exact h
    have hi' : i < H * b := by rw [Nat.mul_comm]; exact hi
    have hiH : i / H < b := Nat.div_lt_of_lt_mul hi'
    have hvec : p.getD (i / H) [] ∈ p := by
      have hlt : i / H < p.length := by omega
      rw [List.getD_eq_getElem?_getD, List.getElem?_eq_getElem hlt]
      exact List.getElem_mem hlt
    have hvlen := hpe _ hvec
    have hmod' : i % H * hd + hd ≤ hd * H := by
      have h1 : (i % H + 1) * hd ≤ H * hd :=
        Nat.mul_le_mul_right hd (Nat.succ_le_of_lt (Nat.mod_lt i hH))
      have h2 : i % H * hd + hd = (i % H + 1) * hd := by ring
      have h3 : H * hd = hd * H := Nat.mul_comm H hd
      omega
    rw [List.length_take, List.length_drop, hvlen]
    omega

lemma sliceB_length (x : List Mat) (se : ℕ × ℕ) :
    (sliceB x se).length = x.length := by
  simp [sliceB]

lemma sliceB_rows {x : List Mat} {n r : ℕ} (hx : BatchRows x n r)
    (a b2 : ℕ) :
    BatchRows (sliceB x (a, b2)) n (min (b2 - a) (r - a)) := by
  obtain ⟨h1, h2⟩ := hx
  refine ⟨by simp [sliceB, h1], ?_⟩
  intro m hm
  simp only [sliceB, List.mem_map] at hm
  obtain ⟨m0, hm0, rfl⟩ := hm
  simp [List.length_take, List.length_drop, h2 m0 hm0]

lemma bmmT_rows {x y : List Mat} {n r : ℕ} (hx : BatchRows x n r)
    (hy : y.length = n) : BatchRows (bmmT x y) n r := by
  obtain ⟨h1, h2⟩ := hx
  refine ⟨by simp [bmmT, h1, hy], ?_⟩
  intro m hm
  obtain ⟨A, hA, B, _, rfl⟩ := mem_zipWith_imp hm
  simp [matMulT, h2 A hA]

lemma mapRows_rows {x : List Mat} {n r : ℕ} (f : Vec → Vec)
    (hx : BatchRows x n r) : BatchRows (mapRows f x) n r := by
  obtain ⟨h1, h2⟩ := hx
  refine ⟨by simp [mapRows, h1], ?_⟩
  intro m hm
  simp only [mapRows, List.mem_map] at hm
  obtain ⟨m0, hm0, rfl⟩ := hm
  simp [h2 m0 hm0]

lemma bmmC_shape {x y : List Mat} {n r : ℕ} (c : ℕ) (hx : BatchRows x n r)
    (hy : y.length = n) : BatchShape (bmmC c x y) n r c := by
  obtain ⟨h1, h2⟩ := hx
  refine ⟨⟨by simp [bmmC, h1, hy], ?_⟩, ?_⟩
  · intro m hm
    obtain ⟨A, hA, B, _, rfl⟩ := mem_zipWith_imp hm
    simp [matMulC, h2 A hA]
  · intro m hm row hrow
    obtain ⟨A, hA, B, _, rfl⟩ := mem_zipWith_imp hm
    simp only [matMulC, List.mem_map] at hrow
    obtain ⟨r0, _, rfl⟩ := hrow
    simp

lemma concat3_shape {x y z : List Mat} {n r1 r2 r3 c : ℕ}
    (hx : BatchShape x n r1 c) (hy : BatchShape y n r2 c)
    (hz : BatchShape z n r3 c) :
    BatchShape (concat3 x y z) n (r1 + r2 + r3) c := by
  obtain ⟨⟨hx1, hx2⟩, hx3⟩ := hx
  obtain ⟨⟨hy1, hy2⟩, hy3⟩ := hy
  obtain ⟨⟨hz1, hz2⟩, hz3⟩ := hz
  refine ⟨⟨by simp [concat3, hx1, hy1, hz1], ?_⟩, ?_⟩
  · intro m hm
    obtain ⟨AB, hAB, C, hC, rfl⟩ := mem_zipWith_imp hm
    obtain ⟨A, hA, B, hB, rfl⟩ := mem_zipWith_imp hAB
    simp [hx2 A hA, hy2 B hB, hz2 C hC]
    omega
  · intro m hm row hrow
    obtain ⟨AB, hAB, C, hC, rfl⟩ := mem_zipWith_imp hm
    obtain ⟨A, hA, B, hB, rfl⟩ := mem_zipWith_imp hAB
    simp only [List.mem_append] at hrow
    rcases hrow with (hrow | hrow) | hrow
    · exact hx3 A hA row hrow
    · exact hy3 B hB row hrow
    · exact hz3 C hC row hrow

lemma numel_of_batchShape {mats : List Mat} {n r c : ℕ}
    (h : BatchShape mats n r c) : numel mats = n * (r * c) := by
  obtain ⟨⟨h1, h2⟩, h3⟩ := h
  unfold numel
  rw [sum_map_const_of (k := r * c), h1]
  intro m hm
  rw [sum_map_const_of (k := c), h2 m hm]
  intro row hrow
  exact h3 m hm row hrow

lemma getD_mem {α : Type} {l : List α} {n : ℕ} (d : α)
    (h : n < l.length) : l.getD n d ∈ l := by
  rw [List.getD_eq_getElem?_getD, List.getElem?_eq_getElem h]
  exact List.getElem_mem h

lemma unreshapeHeads_of_shape {mats : List Mat} {b H s hd : ℕ}
    (h : BatchShape mats (b * H) s hd) :
    ∃ out, unreshapeHeads H hd b s mats = some out ∧
      HasShape out s b (hd * H) := by
  have hnum : numel mats = s * b * (H * hd) := by
    rw [numel_of_batchShape h]
    ring
  refine ⟨_, by rw [unreshapeHeads, if_pos hnum], ?_⟩
  obtain ⟨⟨h1, h2⟩, h3⟩ := h
  refine ⟨by simp, ?_⟩
  intro p hp
  simp only [List.mem_map] at hp
  obtain ⟨t, ht, rfl⟩ := hp
  simp only [List.mem_range] at ht
  refine ⟨by simp, ?_⟩
  intro r hr
  simp only [List.mem_map] at hr
  obtain ⟨bb, hbb, rfl⟩ := hr
  simp only [List.mem_range] at hbb
  rw [List.length_flatten]
  rw [List.map_map]
  rw [sum_map_const_of (k := hd)]
  · simp [Nat.mul_comm]
  · intro i hi
    simp only [List.mem_range] at hi
    simp only [Function.comp]
    have hidx : bb * H + i < b * H := by
      have : bb * H + i < (bb + 1) * H := by
        have : bb * H + i < bb * H + H := by omega
        calc bb * H + i < bb * H + H := this
        _ = (bb + 1) * H := by ring
      have hle : (bb + 1) * H ≤ b * H := Nat.mul_le_mul_right H (by omega)
      omega
    have hmem : mats.getD (bb * H + i) [] ∈ mats :=
      getD_mem [] (by omega)
    have hrows := h2 _ hmem
    have hrowmem : (mats.getD (bb * H + i) []).getD t [] ∈ mats.getD (bb * H + i) [] :=
      getD_mem [] (by omega)
    exact h3 _ hmem _ hrowmem

lemma segScores_rows {q k : List Mat} {n s : ℕ} {t vl al : ℕ}
    (d : Option String) (hq : BatchRows q n s) (hk : k.length = n)
    (hsum : t + vl + al = s) :
    BatchRows (segScores d (0, t) (t, t + vl) (t + vl, t + vl + al) q k).1 n t ∧
    BatchRows (segScores d (0, t) (t, t + vl) (t + vl, t + vl + al) q k).2.1 n vl ∧
    BatchRows (segScores d (0, t) (t, t + vl) (t + vl, t + vl + al) q k).2.2 n al := by
  have e1 : min (t - 0) (s - 0) = t := by omega
  have e2 : min ((t + vl) - t) (s - t) = vl := by omega
  have e3 : min ((t + vl + al) - (t + vl)) (s - (t + vl)) = al := by omega
  have hq1 : BatchRows (sliceB q (0, t)) n t := by
    have := sliceB_rows hq 0 t; rwa [e1] at this
  have hq2 : BatchRows (sliceB q (t, t + vl)) n vl := by
    have := sliceB_rows hq t (t + vl); rwa [e2] at this
  have hq3 : BatchRows (sliceB q (t + vl, t + vl + al)) n al := by
    have := sliceB_rows hq (t + vl) (t + vl + al); rwa [e3] at this
  have hk1 : (sliceB k (0, t)).length = n := by rw [sliceB_length, hk]
  have hk2 : (sliceB k (t, t + vl)).length = n := by rw [sliceB_length, hk]
  have hk3 : (sliceB k (t + vl, t + vl + al)).length = n := by rw [sliceB_length, hk]
  unfold segScores
  split
  · exact ⟨bmmT_rows hq1 hk2, bmmT_rows hq2 hk3, bmmT_rows hq3 hk1⟩
  · split
    · exact ⟨bmmT_rows hq1 hk3, bmmT_rows hq2 hk1, bmmT_rows hq3 hk2⟩
    · exact ⟨bmmT_rows hq1 hk1, bmmT_rows hq2 hk2, bmmT_rows hq3 hk3⟩

lemma segOutputs_shape {A B C : List Mat} {v : List Mat}
    {n t vl al : ℕ} (d : Option String) (hd : ℕ)
    (h1 : BatchRows A n t) (h2 : BatchRows B n vl)
    (h3 : BatchRows C n al) (hv : v.length = n)
    (s1 s2 s3 : ℕ × ℕ) :
    BatchShape (segOutputs d hd s1 s2 s3 (A, B, C) v).1 n t hd ∧
    BatchShape (segOutputs d hd s1 s2 s3 (A, B, C) v).2.1 n vl hd ∧
    BatchShape (segOutputs d hd s1 s2 s3 (A, B, C) v).2.2 n al hd := by
  have hvs : ∀ se : ℕ × ℕ, (sliceB v se).length = n := by
    intro se; rw [sliceB_length, hv]
  unfold segOutputs
  split
  · exact ⟨bmmC_shape hd h1 (hvs _), bmmC_shape hd h2 (hvs _), bmmC_shape hd h3 (hvs _)⟩
  · split
    · exact ⟨bmmC_shape hd h1 (hvs _), bmmC_shape hd h2 (hvs _), bmmC_shape hd h3 (hvs _)⟩
    · exact ⟨bmmC_shape hd h1 (hvs _), bmmC_shape hd h2 (hvs _), bmmC_shape hd h3 (hvs _)⟩

lemma segScores_congr (d : Option String) (s1 s2 s3 : ℕ × ℕ)
    (q : List Mat) {k k' : List Mat}
    (h1 : sliceB k s1 = sliceB k' s1) (h2 : sliceB k s2 = sliceB k' s2)
    (h3 : sliceB k s3 = sliceB k' s3) :
    segScores d s1 s2 s3 q k = segScores d s1 s2 s3 q k' := by
  unfold segScores
  split
  · simp only [h1, h2, h3]
  · split
    · simp only [h1, h2, h3]
    · simp only [h1, h2, h3]

lemma segOutputs_congr (d : Option String) (hd : ℕ) (s1 s2 s3 : ℕ × ℕ)
    (aw : List Mat × List Mat × List Mat) {v v' : List Mat}
    (h1 : sliceB v s1 = sliceB v' s1) (h2 : sliceB v s2 = sliceB v' s2)
    (h3 : sliceB v s3 = sliceB v' s3) :
    segOutputs d hd s1 s2 s3 aw v = segOutputs d hd s1 s2 s3 aw v' := by
  unfold segOutputs
  split
  · simp only [h1, h2, h3]
  · split
    · simp only [h1, h2, h3]
    · simp only [h1, h2, h3]

lemma forwardBlocks_ok_shape (M : GraphAttention) (sm : Vec → Vec)
    (f1 f2 : Bool) (query key value : Seq3) (em : Option Mat)
    (t vl al : ℕ) (d : Option String) {s b : ℕ}
    (hWF : M.WF) (hq : HasShape query s b M.embed_dim)
    (hs : 0 < s) (hb0 : 0 < b)
    (hkv : size3 key = size3 value) (hsum : t + vl + al = s) :
    ∃ bl, M.forwardBlocks sm f1 f2 query key value em (t, vl, al) none d
        = Except.ok bl ∧
      BatchShape bl.1 (b * M.num_heads) t M.head_dim ∧
      BatchShape bl.2.1 (b * M.num_heads) vl M.head_dim ∧
      BatchShape bl.2.2 (b * M.num_heads) al M.head_dim := by
  obtain ⟨hHD, hW, hbias, hOW, hOB, hbkv⟩ := hWF
  have hsize := size3_of_hasShape hq hs hb0
  have hq0 : HasShape (scaleSeq M.scaling (M.projectQKV f1 f2 query key value).1)
      s b (M.head_dim * M.num_heads) := by
    rw [hHD]
    exact scaleSeq_shape _ (projectQKV_fst_shape f1 f2 hW hbias hq hs hb0)
  have hqB := reshapeHeads_shape hq0
  unfold GraphAttention.forwardBlocks
  rw [hsize]
  dsimp only
  rw [if_pos rfl, if_pos hkv]
  cases hbk : M.bias_k with
  | some bk =>
    cases hbv : M.bias_v with
    | none =>
      rw [hbk, hbv] at hbkv
      simp at hbkv
    | some bv =>
      refine ⟨_, rfl, ?_, ?_, ?_⟩ <;>
      · have hk2len : (if M.add_zero_attn then
            (reshapeHeads M.num_heads M.head_dim b
              ((M.projectQKV f1 f2 query key value).2.1 ++ [List.replicate b bk])).map
              (fun m => m ++ [List.replicate M.head_dim 0])
          else reshapeHeads M.num_heads M.head_dim b
              ((M.projectQKV f1 f2 query key value).2.1 ++ [List.replicate b bk])).length
            = b * M.num_heads := by
          cases M.add_zero_attn <;> simp [reshapeHeads_length]
        have hv2len : (if M.add_zero_attn then
            (reshapeHeads M.num_heads M.head_dim b
              ((M.projectQKV f1 f2 query key value).2.2 ++ [List.replicate b bv])).map
              (fun m => m ++ [List.replicate M.head_dim 0])
          else reshapeHeads M.num_heads M.head_dim b
              ((M.projectQKV f1 f2 query key value).2.2 ++ [List.replicate b bv])).length
            = b * M.num_heads := by
          cases M.add_zero_attn <;> simp [reshapeHeads_length]
        have haw := segScores_rows d hqB.1 hk2len hsum
        have hos := segOutputs_shape d M.head_dim
          (mapRows_rows sm haw.1) (mapRows_rows sm haw.2.1)
          (mapRows_rows sm haw.2.2) hv2len (0, t) (t, t + vl) (t + vl, t + vl + al)
        first
        | exact hos.1
        | exact hos.2.1
        | exact hos.2.2
  | none =>
    refine ⟨_, rfl, ?_, ?_, ?_⟩ <;>
    · have hk2len : (if M.add_zero_attn then
          (reshapeHeads M.num_heads M.head_dim b
            (M.projectQKV f1 f2 query key value).2.1).map
            (fun m => m ++ [List.replicate M.head_dim 0])
        else reshapeHeads M.num_heads M.head_dim b
            (M.projectQKV f1 f2 query key value).2.1).length
          = b * M.num_heads := by
        cases M.add_zero_attn <;> simp [reshapeHeads_length]
      have hv2len : (if M.add_zero_attn then
          (reshapeHeads M.num_heads M.head_dim b
            (M.projectQKV f1 f2 query key value).2.2).map
            (fun m => m ++ [List.replicate M.head_dim 0])
        else reshapeHeads M.num_heads M.head_dim b
            (M.projectQKV f1 f2 query key value).2.2).length
          = b * M.num_heads := by
        cases M.add_zero_attn <;> simp [reshapeHeads_length]
      have haw := segScores_rows d hqB.1 hk2len hsum
      have hos := segOutputs_shape d M.head_dim
        (mapRows_rows sm haw.1) (mapRows_rows sm haw.2.1)
        (mapRows_rows sm haw.2.2) hv2len (0, t) (t, t + vl) (t + vl, t + vl + al)
      first
      | exact hos.1
      | exact hos.2.1
      | exact hos.2.2

lemma forward_master (M : GraphAttention) (sm : Vec → Vec)
    (f1 f2 : Bool) (query key value : Seq3) (em : Option Mat)
    (t vl al : ℕ) (d : Option String) {s b : ℕ}
    (hWF : M.WF) (hq : HasShape query s b M.embed_dim)
    (hs : 0 < s) (hb0 : 0 < b)
    (hkv : size3 key = size3 value) (hsum : t + vl + al = s) :
    ∃ bl out,
      M.forwardBlocks sm f1 f2 query key value em (t, vl, al) none d
        = Except.ok bl ∧
      M.forward sm f1 f2 query key value em (t, vl, al) none d
        = Except.ok (out, (none, none)) ∧
      HasShape out s b M.embed_dim ∧
      BatchShape bl.1 (b * M.num_heads) t M.head_dim ∧
      BatchShape bl.2.1 (b * M.num_heads) vl M.head_dim ∧
      BatchShape bl.2.2 (b * M.num_heads) al M.head_dim := by
  obtain ⟨bl, hbl, h1, h2, h3⟩ :=
    forwardBlocks_ok_shape M sm f1 f2 query key value em t vl al d hWF hq hs hb0 hkv hsum
  obtain ⟨hHD, hW, hbias, hOW, hOB, hbkv⟩ := hWF
  have hsize := size3_of_hasShape hq hs hb0
  have hcat : BatchShape (concat3 bl.1 bl.2.1 bl.2.2) (b * M.num_heads) s M.head_dim := by
    have := concat3_shape h1 h2 h3
    rwa [hsum] at this
  obtain ⟨out0, hun, hsh⟩ := unreshapeHeads_of_shape hcat
  refine ⟨bl, linearT out0 M.out_proj_weight M.out_proj_bias, hbl, ?_, ?_, h1, h2, h3⟩
  · unfold GraphAttention.forward
    rw [hbl]
    dsimp only
    rw [hsize]
    dsimp only
    rw [hun]
  · have hlin := linearT_shape (W := M.out_proj_weight) (o := M.out_proj_bias)
      hsh.1 (fun p hp => (hsh.2 p hp).1) (by rw [hOW]; exact hOB)
    rwa [hOW] at hlin

/-! Concrete instances used by the witnesses and counterexamples. -/

/-- A tiny concrete module state (embed_dim 1, one head), used to
evaluate the model on explicit inputs. -/
def Mex : GraphAttention :=
  { embed_dim := 1
    num_heads := 1
    attn_dropout := 0
    head_dim := 1
    scaling := 1
    in_proj_weight := [[1], [2], [3]]
    in_proj_bias := none
    out_proj_weight := [[1]]
    out_proj_bias := none
    bias_k := none
    bias_v := none
    add_zero_attn := false }

/-- A concrete (3, 1, 1) query tensor. -/
def qex : Seq3 := [[[1]], [[1]], [[1]]]

/-- C4: for every well-formed forward call whose `seq_split` lengths sum
to the query's sequence length (and with no `mask_fixer`), the call
succeeds, the returned output sequence has the shape of the input query
sequence (sequence_length, batch, embed_dim), and it is returned together
with the `(None, None)` placeholder pair. -/
theorem gsifn_C4 (M : GraphAttention) (sm : Vec → Vec) (f1 f2 : Bool)
    (query key value : Seq3) (em : Option Mat) (t vl al : ℕ)
    (d : Option String) {s b : ℕ}
    (hWF : M.WF) (hq : HasShape query s b M.embed_dim)
    (hs : 0 < s) (hb0 : 0 < b)
    (hkv : size3 key = size3 value) (hsum : t + vl + al = s) :
    ∃ out, M.forward sm f1 f2 query key value em (t, vl, al) none d
        = Except.ok (out, (none, none)) ∧ HasShape out s b M.embed_dim := by
  obtain ⟨bl, out, _, hf, hsh, _⟩ :=
    forward_master M sm f1 f2 query key value em t vl al d hWF hq hs hb0 hkv hsum
  exact ⟨out, hf, hsh⟩

/-- Witness for C4 at a concrete input. -/
theorem gsifn_C4_witness :
    ∃ out, Mex.forward id false false qex qex qex none (1, 1, 1) none none
        = Except.ok (out, (none, none)) ∧ HasShape out 3 1 Mex.embed_dim :=
  gsifn_C4 Mex id false false qex qex qex none 1 1 1 none (s := 3) (b := 1)
    (by decide) (by decide) (by decide) (by decide) (by decide) (by decide)

/-- C8: a forward call in which one or more `seq_split` entries are zero
(the lengths still summing to the query's sequence length) does not fail:
an empty segment contributes a block with zero rows to the concatenation
and the output still has `sequence_length` positions. -/
theorem gsifn_C8 (M : GraphAttention) (sm : Vec → Vec) (f1 f2 : Bool)
    (query key value : Seq3) (em : Option Mat) (t vl al : ℕ)
    (d : Option String) {s b : ℕ}
    (hWF : M.WF) (hq : HasShape query s b M.embed_dim)
    (hs : 0 < s) (hb0 : 0 < b)
    (hkv : size3 key = size3 value) (hsum : t + vl + al = s)
    (h0 : t = 0 ∨ vl = 0 ∨ al = 0) :
    ∃ bl out,
      M.forwardBlocks sm f1 f2 query key value em (t, vl, al) none d
        = Except.ok bl ∧
      M.forward sm f1 f2 query key value em (t, vl, al) none d
        = Except.ok (out, (none, none)) ∧
      out.length = s ∧
      (t = 0 → ∀ m ∈ bl.1, m = []) ∧
      (vl = 0 → ∀ m ∈ bl.2.1, m = []) ∧
      (al = 0 → ∀ m ∈ bl.2.2, m = []) := by
  obtain ⟨bl, out, hbl, hf, hsh, h1, h2, h3⟩ :=
    forward_master M sm f1 f2 query key value em t vl al d hWF hq hs hb0 hkv hsum
  refine ⟨bl, out, hbl, hf, hsh.1, ?_, ?_, ?_⟩
  · intro ht m hm
    have := h1.1.2 m hm
    rw [ht] at this
    exact List.length_eq_zero.mp this
  · intro ht m hm
    have := h2.1.2 m hm
    rw [ht] at this
    exact List.length_eq_zero.mp this
  · intro ht m hm
    have := h3.1.2 m hm
    rw [ht] at this
    exact List.length_eq_zero.mp this

/-- Witness for C8 at a concrete input with an empty first segment. -/
theorem gsifn_C8_witness :
    ∃ bl out,
      Mex.forwardBlocks id false false qex qex qex none (0, 2, 1) none
          (some "forward") = Except.ok bl ∧
      Mex.forward id false false qex qex qex none (0, 2, 1) none
          (some "forward") = Except.ok (out, (none, none)) ∧
      out.length = 3 ∧
      (0 = 0 → ∀ m ∈ bl.1, m = []) ∧
      (2 = 0 → ∀ m ∈ bl.2.1, m = []) ∧
      (1 = 0 → ∀ m ∈ bl.2.2, m = []) :=
  gsifn_C8 Mex id false false qex qex qex none 0 2 1 (some "forward")
    (s := 3) (b := 1) (by decide) (by decide) (by decide) (by decide)
    (by decide) (by decide) (Or.inl rfl)

/-- Concrete batched tensors (one batch element, four rows) used by the
C1 witness; `km2` differs from `km` only at row 3, outside the three
segment ranges of the split (1, 1, 1). -/
def qm : List Mat := [[[1], [2], [3], [4]]]

def km : List Mat := [[[5], [6], [7], [8]]]

def km2 : List Mat := [[[5], [6], [7], [9]]]

/-- C1: with segment ranges S1 = [0, t), S2 = [t, t + v), S3 = [t + v,
t + v + a) derived from `seq_split`, the direction policy computes
exactly the table's ordered (query-segment, key-segment) score pairs —
`forward`: S1 from S2, S2 from S3, S3 from S1; `backward`: S1 from S3,
S2 from S1, S3 from S2; anything else: the pure self pairs — and keys
that agree on the three segment ranges give identical scores, so no
other part of the key tensor contributes. -/
theorem gsifn_C1 (t vl al : ℕ) (q k k2 : List Mat) (d : Option String)
    (h1 : sliceB k (0, t) = sliceB k2 (0, t))
    (h2 : sliceB k (t, t + vl) = sliceB k2 (t, t + vl))
    (h3 : sliceB k (t + vl, t + vl + al) = sliceB k2 (t + vl, t + vl + al)) :
    segScores d (0, t) (t, t + vl) (t + vl, t + vl + al) q k =
      (if d = some "forward" then
        (bmmT (sliceB q (0, t)) (sliceB k (t, t + vl)),
         bmmT (sliceB q (t, t + vl)) (sliceB k (t + vl, t + vl + al)),
         bmmT (sliceB q (t + vl, t + vl + al)) (sliceB k (0, t)))
       else if d = some "backward" then
        (bmmT (sliceB q (0, t)) (sliceB k (t + vl, t + vl + al)),
         bmmT (sliceB q (t, t + vl)) (sliceB k (0, t)),
         bmmT (sliceB q (t + vl, t + vl + al)) (sliceB k (t, t + vl)))
       else
        (bmmT (sliceB q (0, t)) (sliceB k (0, t)),
         bmmT (sliceB q (t, t + vl)) (sliceB k (t, t + vl)),
         bmmT (sliceB q (t + vl, t + vl + al)) (sliceB k (t + vl, t + vl + al)))) ∧
    segScores d (0, t) (t, t + vl) (t + vl, t + vl + al) q k =
      segScores d (0, t) (t, t + vl) (t + vl, t + vl + al) q k2 := by
  constructor
  · by_cases hf : d = some "forward"
    · simp [segScores, hf]
    · by_cases hbw : d = some "backward"
      · simp [segScores, hf, hbw]
      · simp [segScores, hf, hbw]
  · exact segScores_congr d _ _ _ q h1 h2 h3

/-- Witness for C1 at a concrete input: for direction `forward` and split
(1, 1, 1) the table instance holds, and changing the key at row 3 (which
lies in none of the three segments) leaves every score unchanged. -/
theorem gsifn_C1_witness :
    segScores (some "forward") (0, 1) (1, 1 + 1) (1 + 1, 1 + 1 + 1) qm km =
      (bmmT (sliceB qm (0, 1)) (sliceB km (1, 1 + 1)),
       bmmT (sliceB qm (1, 1 + 1)) (sliceB km (1 + 1, 1 + 1 + 1)),
       bmmT (sliceB qm (1 + 1, 1 + 1 + 1)) (sliceB km (0, 1))) ∧
    segScores (some "forward") (0, 1) (1, 1 + 1) (1 + 1, 1 + 1 + 1) qm km =
      segScores (some "forward") (0, 1) (1, 1 + 1) (1 + 1, 1 + 1 + 1) qm km2 := by
  have h := gsifn_C1 1 1 1 qm km km2 (some "forward")
    (by decide) (by decide) (by decide)
  exact ⟨by rw [h.1]; simp, h.2⟩

/-- C2: for every direction, the value multiplication of each active pair
uses the value slice of the same key segment that produced that pair's
scores (never the query segment): the first components show which value
slice multiplies each attention-weight block, the second components show
which key slice produced the corresponding scores, and the two tables
coincide segment for segment. -/
theorem gsifn_C2 (t vl al hd : ℕ) (A B C q k w : List Mat)
    (d : Option String) :
    segOutputs d hd (0, t) (t, t + vl) (t + vl, t + vl + al) (A, B, C) w =
      (if d = some "forward" then
        (bmmC hd A (sliceB w (t, t + vl)),
         bmmC hd B (sliceB w (t + vl, t + vl + al)),
         bmmC hd C (sliceB w (0, t)))
       else if d = some "backward" then
        (bmmC hd A (sliceB w (t + vl, t + vl + al)),
         bmmC hd B (sliceB w (0, t)),
         bmmC hd C (sliceB w (t, t + vl)))
       else
        (bmmC hd A (sliceB w (0, t)),
         bmmC hd B (sliceB w (t, t + vl)),
         bmmC hd C (sliceB w (t + vl, t + vl + al)))) ∧
    segScores d (0, t) (t, t + vl) (t + vl, t + vl + al) q k =
      (if d = some "forward" then
        (bmmT (sliceB q (0, t)) (sliceB k (t, t + vl)),
         bmmT (sliceB q (t, t + vl)) (sliceB k (t + vl, t + vl + al)),
         bmmT (sliceB q (t + vl, t + vl + al)) (sliceB k (0, t)))
       else if d = some "backward" then
        (bmmT (sliceB q (0, t)) (sliceB k (t + vl, t + vl + al)),
         bmmT (sliceB q (t, t + vl)) (sliceB k (0, t)),
         bmmT (sliceB q (t + vl, t + vl + al)) (sliceB k (t, t + vl)))
       else
        (bmmT (sliceB q (0, t)) (sliceB k (0, t)),
         bmmT (sliceB q (t, t + vl)) (sliceB k (t, t + vl)),
         bmmT (sliceB q (t + vl, t + vl + al)) (sliceB k (t + vl, t + vl + al)))) := by
  constructor
  · by_cases hf : d = some "forward"
    · simp [segOutputs, hf]
    · by_cases hbw : d = some "backward"
      · simp [segOutputs, hf, hbw]
      · simp [segOutputs, hf, hbw]
  · by_cases hf : d = some "forward"
    · simp [segScores, hf]
    · by_cases hbw : d = some "backward"
      · simp [segScores, hf, hbw]
      · simp [segScores, hf, hbw]

/-- C9: for positive `embed_dim` and `num_heads`, construction succeeds
exactly when `embed_dim` is evenly divisible by `num_heads`; otherwise
the constructor itself (not a later call) fails with the configuration
error of the `__init__` assertion. -/
theorem gsifn_C9 (e h : ℕ) (he : 0 < e) (hh : 0 < h) (ad : ℚ)
    (bias abkv az : Bool) (sc : ℚ) (iw ow : Mat) (bk bv : Vec) :
    okB (GraphAttention.make e h ad bias abkv az sc iw ow bk bv) = true
      ↔ e % h = 0 := by
  have key : e / h * h = e ↔ e % h = 0 := by
    constructor
    · intro hd
      exact Nat.mod_eq_zero_of_dvd ⟨e / h, by rw [Nat.mul_comm]; exact hd.symm⟩
    · intro hm
      exact Nat.div_mul_cancel (Nat.dvd_iff_mod_eq_zero.mpr hm)
  unfold GraphAttention.make
  by_cases hdvd : e / h * h = e
  · simp [hdvd, okB, key.mp hdvd]
  · simp only [if_neg hdvd, okB]
    constructor
    · intro hcon
      simp at hcon
    · intro hm
      exact absurd (key.mpr hm) hdvd

/-- Witness for C9 at concrete sizes: 4 divisible by 2. -/
theorem gsifn_C9_witness :
    okB (GraphAttention.make 4 2 0 true false false 1 [] [] [] []) = true
      ↔ 4 % 2 = 0 :=
  gsifn_C9 4 2 (by decide) (by decide) 0 true false false 1 [] [] [] []

/-- C5 (code-bug evidence): on a fully valid call, supplying a
`mask_fixer` makes `forward` fail with the attribute error of line 149
(`attn_weights` is a Python list at that point and has no `.float`
method), instead of completing with a masked softmax as the claim
states. -/
theorem gsifn_C5 :
    Mex.forward id false false qex qex qex none (1, 1, 1) (some [[1]]) none
      = Except.error "AttributeError: list object has no attribute float" := by
  rfl

/-- Counterexample to C6 as stated: the call with `seq_split = (1, 1, 2)`
on a query of sequence length 3 violates the segment-sum contract
(1 + 1 + 2 = 4 is not 3), yet no assertion fires and the call returns a
result, because Python slicing clamps the out-of-range segment. -/
theorem gsifn_C6_counterexample :
    (1 + 1 + 2 ≠ 3) ∧
    okB (Mex.forward id false false qex qex qex none (1, 1, 2) none none)
      = true := by
  exact ⟨by decide, by decide⟩

/-- C6 as amended: the query/key/value shape contract is enforced by
assertion-style checks (a key/value size mismatch, with the query's
embedding width matching the module, aborts the call fatally), but
segment lengths that do not sum to the query's sequence length are not
checked and such a call can return a result. -/
theorem gsifn_C6 (M : GraphAttention) (sm : Vec → Vec) (f1 f2 : Bool)
    (query key value : Seq3) (em : Option Mat) (sp : ℕ × ℕ × ℕ)
    (mf : Option Mat) (d : Option String)
    (hemb : (size3 query).2.2 = M.embed_dim)
    (hne : size3 key ≠ size3 value) :
    M.forward sm f1 f2 query key value em sp mf d
      = Except.error "assert: key_nodes.size() == value_nodes.size()" := by
  unfold GraphAttention.forward GraphAttention.forwardBlocks
  rcases hsq : size3 query with ⟨a, bb, c⟩
  rw [hsq] at hemb
  dsimp only at hemb ⊢
  rw [if_pos hemb, if_neg hne]

/-- Witness for C6 (amended) at a concrete input: a key of three
positions against a value of two positions trips the size assertion. -/
theorem gsifn_C6_witness :
    Mex.forward id false false qex qex [[[1]], [[1]]] none (1, 1, 1) none none
      = Except.error "assert: key_nodes.size() == value_nodes.size()" :=
  gsifn_C6 Mex id false false qex qex [[[1]], [[1]]] none (1, 1, 1) none none
    (by decide) (by decide)

/-- C7: the `edge_mask` argument never reaches any attention-score
tensor — it is only extended alongside the sentinel and zero-attention
rows and then dropped — so two calls differing only in `edge_mask`
(including presence versus absence) return identical results. -/
theorem gsifn_C7 (M : GraphAttention) (sm : Vec → Vec) (f1 f2 : Bool)
    (query key value : Seq3) (em1 em2 : Option Mat) (sp : ℕ × ℕ × ℕ)
    (mf : Option Mat) (d : Option String) :
    M.forward sm f1 f2 query key value em1 sp mf d
      = M.forward sm f1 f2 query key value em2 sp mf d := by
  rfl

lemma chunk_slice_vec (W : Mat) (ob : Option Vec) (vec : Vec) (E : ℕ)
    (hW : W.length = 3 * E) (hb : OptLen ob (3 * E)) :
    (addBias (W.map (fun wrow => dot wrow vec)) ob).take E
        = addBias ((sliceRows W 0 (some E)).map (fun wrow => dot wrow vec))
            (ob.map (fun b => sliceVecR b 0 (some E))) ∧
    ((addBias (W.map (fun wrow => dot wrow vec)) ob).drop E).take E
        = addBias ((sliceRows W E (some (2 * E))).map (fun wrow => dot wrow vec))
            (ob.map (fun b => sliceVecR b E (some (2 * E)))) ∧
    (addBias (W.map (fun wrow => dot wrow vec)) ob).drop (2 * E)
        = addBias ((sliceRows W (2 * E) none).map (fun wrow => dot wrow vec))
            (ob.map (fun b => sliceVecR b (2 * E) none)) := by
  have hsub : 2 * E - E = E := by omega
  cases ob with
  | none =>
    refine ⟨?_, ?_, ?_⟩ <;>
      simp [addBias, sliceRows, List.map_take, List.map_drop, hsub]
  | some bb =>
    refine ⟨?_, ?_, ?_⟩ <;>
      simp [addBias, sliceRows, sliceVecR, List.take_zipWith, List.drop_zipWith,
        List.map_take, List.map_drop, hsub]

lemma chunkkv_slice_vec (W : Mat) (ob : Option Vec) (vec : Vec) (E : ℕ)
    (hW : W.length = 3 * E) (hb : OptLen ob (3 * E)) :
    (addBias ((sliceRows W E none).map (fun wrow => dot wrow vec))
        (ob.map (fun b => sliceVecR b E none))).take E
      = addBias ((sliceRows W E (some (2 * E))).map (fun wrow => dot wrow vec))
          (ob.map (fun b => sliceVecR b E (some (2 * E)))) ∧
    (addBias ((sliceRows W E none).map (fun wrow => dot wrow vec))
        (ob.map (fun b => sliceVecR b E none))).drop E
      = addBias ((sliceRows W (2 * E) none).map (fun wrow => dot wrow vec))
          (ob.map (fun b => sliceVecR b (2 * E) none)) := by
  have h2E : E + E = 2 * E := by ring
  have hsub : 2 * E - E = E := by omega
  cases ob with
  | none =>
    constructor
    · simp [addBias, sliceRows, List.map_take, hsub]
    · simp only [addBias, sliceRows, Option.map_none']
      rw [← List.map_drop]
      simp only [List.drop_drop]
      rw [h2E]
  | some bb =>
    constructor
    · simp [addBias, sliceRows, sliceVecR, List.take_zipWith, List.map_take, hsub]
    · simp only [addBias, sliceRows, sliceVecR, Option.map_some']
      rw [List.drop_zipWith, ← List.map_drop]
      simp only [List.drop_drop]
      rw [h2E]

lemma pos_of_mem_shape {x : Seq3} {s b e : ℕ} (hx : HasShape x s b e)
    {p : List Vec} {vec : Vec} (hp : p ∈ x) (hv : vec ∈ p) :
    0 < s ∧ 0 < b := by
  obtain ⟨h1, h2⟩ := hx
  constructor
  · rcases x with _ | ⟨a, tl⟩
    · simp at hp
    · simp at h1; omega
  · have := (h2 p hp).1
    rcases p with _ | ⟨a, tl⟩
    · simp at hv
    · simp at this; omega

lemma in_proj_qkv_eq {M : GraphAttention} {x : Seq3} {s b e : ℕ}
    (hW : M.in_proj_weight.length = 3 * M.embed_dim)
    (hbias : OptLen M.in_proj_bias (3 * M.embed_dim))
    (hx : HasShape x s b e) :
    M.in_proj_qkv x = (M.in_proj_q x, M.in_proj_k x, M.in_proj_v x) := by
  unfold GraphAttention.in_proj_qkv
  dsimp only
  set c0 := chunkSize (innerLen (M.inProjSlice x 0 none)) 3 with hc0
  have hcE : ∀ p ∈ x, ∀ vec ∈ p, c0 = M.embed_dim := by
    intro p hp vec hv
    obtain ⟨hs, hb0⟩ := pos_of_mem_shape hx hp hv
    have hfull := inProjSlice_shape 0 none hW hbias hx.1 (fun p hp => (hx.2 p hp).1)
    have hlen : (sliceRows M.in_proj_weight 0 none).length = 3 * M.embed_dim := by
      simp [sliceRows, hW]
    rw [hlen] at hfull
    rw [hc0, innerLen_eq_of_hasShape hfull hs hb0]
    simp [chunkSize]
    omega
  refine Prod.ext ?_ (Prod.ext ?_ ?_) <;>
    · show _ = M.inProjSlice x _ _
      unfold GraphAttention.inProjSlice linearT
      dsimp only
      rw [List.map_map]
      apply List.map_congr_left
      intro p hp
      dsimp only [Function.comp]
      rw [List.map_map]
      apply List.map_congr_left
      intro vec hv
      dsimp only [Function.comp]
      rw [hcE p hp vec hv]
      rw [show sliceRows M.in_proj_weight 0 none = M.in_proj_weight from by
            simp [sliceRows],
          show Option.map (fun bb => sliceVecR bb 0 none) M.in_proj_bias
              = M.in_proj_bias from by
            cases hob : M.in_proj_bias <;> simp [sliceVecR]]
      first
      | exact (chunk_slice_vec M.in_proj_weight M.in_proj_bias vec M.embed_dim hW hbias).1
      | exact (chunk_slice_vec M.in_proj_weight M.in_proj_bias vec M.embed_dim hW hbias).2.1
      | exact (chunk_slice_vec M.in_proj_weight M.in_proj_bias vec M.embed_dim hW hbias).2.2

lemma in_proj_kv_eq {M : GraphAttention} {x : Seq3} {s b e : ℕ}
    (hW : M.in_proj_weight.length = 3 * M.embed_dim)
    (hbias : OptLen M.in_proj_bias (3 * M.embed_dim))
    (hx : HasShape x s b e) :
    M.in_proj_kv x = (M.in_proj_k x, M.in_proj_v x) := by
  unfold GraphAttention.in_proj_kv
  dsimp only
  set c0 := chunkSize (innerLen (M.inProjSlice x M.embed_dim none)) 2 with hc0
  have hcE : ∀ p ∈ x, ∀ vec ∈ p, c0 = M.embed_dim := by
    intro p hp vec hv
    obtain ⟨hs, hb0⟩ := pos_of_mem_shape hx hp hv
    have hfull := inProjSlice_shape M.embed_dim none hW hbias hx.1
      (fun p hp => (hx.2 p hp).1)
    have hlen : (sliceRows M.in_proj_weight M.embed_dim none).length
        = 2 * M.embed_dim := by
      simp [sliceRows, hW]
      omega
    rw [hlen] at hfull
    rw [hc0, innerLen_eq_of_hasShape hfull hs hb0]
    simp [chunkSize]
    omega
  refine Prod.ext ?_ ?_ <;>
    · show _ = M.inProjSlice x _ _
      unfold GraphAttention.inProjSlice linearT
      dsimp only
      rw [List.map_map]
      apply List.map_congr_left
      intro p hp
      dsimp only [Function.comp]
      rw [List.map_map]
      apply List.map_congr_left
      intro vec hv
      dsimp only [Function.comp]
      rw [hcE p hp vec hv]
      first
      | exact (chunkkv_slice_vec M.in_proj_weight M.in_proj_bias vec M.embed_dim hW hbias).1
      | exact (chunkkv_slice_vec M.in_proj_weight M.in_proj_bias vec M.embed_dim hW hbias).2

lemma projectQKV_same {M : GraphAttention} {x : Seq3} {s b e : ℕ}
    (hW : M.in_proj_weight.length = 3 * M.embed_dim)
    (hbias : OptLen M.in_proj_bias (3 * M.embed_dim))
    (hx : HasShape x s b e) (f1 f2 : Bool) :
    M.projectQKV f1 f2 x x x = (M.in_proj_q x, M.in_proj_k x, M.in_proj_v x) := by
  unfold GraphAttention.projectQKV
  cases f1 with
  | true =>
    simp only [if_pos]
    exact in_proj_qkv_eq hW hbias hx
  | false =>
    cases f2 with
    | true =>
      simp only [Bool.false_eq_true, if_false, if_pos]
      rw [in_proj_kv_eq hW hbias hx]
    | false =>
      simp only [Bool.false_eq_true, if_false]

/-- C3: with the allocated weight sizes, the fused joint-projection path
(`in_proj_qkv`, one combined matmul chunked into three) and the
independent-projection path (`in_proj_q`/`in_proj_k`/`in_proj_v`, slices
of the same combined weight and bias) produce identical Q, K and V
values on every rectangular input; consequently the buffer-identity
flags that pick the path never change the result of `forward` when
query, key and value hold the same values. -/
theorem gsifn_C3 (M : GraphAttention) (x : Seq3) {s b e : ℕ}
    (hW : M.in_proj_weight.length = 3 * M.embed_dim)
    (hbias : OptLen M.in_proj_bias (3 * M.embed_dim))
    (hx : HasShape x s b e) :
    M.in_proj_qkv x = (M.in_proj_q x, M.in_proj_k x, M.in_proj_v x) ∧
    ∀ (sm : Vec → Vec) (f1 f2 f1' f2' : Bool) (em : Option Mat)
      (sp : ℕ × ℕ × ℕ) (mf : Option Mat) (d : Option String),
      M.forward sm f1 f2 x x x em sp mf d
        = M.forward sm f1' f2' x x x em sp mf d := by
  refine ⟨in_proj_qkv_eq hW hbias hx, ?_⟩
  intro sm f1 f2 f1' f2' em sp mf d
  unfold GraphAttention.forward GraphAttention.forwardBlocks
  rw [projectQKV_same hW hbias hx f1 f2, projectQKV_same hW hbias hx f1' f2']

/-- Witness for C3 at a concrete module and input: the fused and
independent projections agree, and flipping the dispatch flags leaves
`forward` unchanged. -/
theorem gsifn_C3_witness :
    Mex.in_proj_qkv qex = (Mex.in_proj_q qex, Mex.in_proj_k qex, Mex.in_proj_v qex) ∧
    Mex.forward id true false qex qex qex none (1, 1, 1) none none
      = Mex.forward id false false qex qex qex none (1, 1, 1) none none := by
  have h := gsifn_C3 Mex qex (s := 3) (b := 1) (e := 1)
    (by decide) (by decide) (by decide)
  exact ⟨h.1, h.2 id true false false false none (1, 1, 1) none none⟩

lemma take_len_append {α : Type} (l1 l2 : List α) :
    (l1 ++ l2).take l1.length = l1 := by
  rw [List.take_append_of_le_length (Nat.le_refl _), List.take_length]

lemma projectQKV_k_length (M : GraphAttention) (f1 f2 : Bool)
    (q k v : Seq3) (hk : k.length = q.length) :
    (M.projectQKV f1 f2 q k v).2.1.length = q.length := by
  cases f1 <;> cases f2 <;>
    simp [GraphAttention.projectQKV, GraphAttention.in_proj_qkv,
      GraphAttention.in_proj_kv, GraphAttention.in_proj_k,
      GraphAttention.inProjSlice, linearT, hk]

lemma projectQKV_v_length (M : GraphAttention) (f1 f2 : Bool)
    (q k v : Seq3) (hk : k.length = q.length) (hv : v.length = q.length) :
    (M.projectQKV f1 f2 q k v).2.2.length = q.length := by
  cases f1 <;> cases f2 <;>
    simp [GraphAttention.projectQKV, GraphAttention.in_proj_qkv,
      GraphAttention.in_proj_kv, GraphAttention.in_proj_v,
      GraphAttention.inProjSlice, linearT, hk, hv]

lemma sliceB_biasAppend_congr (H hd bsz : ℕ) (kp : Seq3) (r1 r2 : List Vec)
    (z : Bool) (zrow : Vec) (aa b2 : ℕ) (hb2 : b2 ≤ kp.length) :
    sliceB (if z then
        (reshapeHeads H hd bsz (kp ++ [r1])).map (fun m => m ++ [zrow])
      else reshapeHeads H hd bsz (kp ++ [r1])) (aa, b2)
      = sliceB (if z then
        (reshapeHeads H hd bsz (kp ++ [r2])).map (fun m => m ++ [zrow])
      else reshapeHeads H hd bsz (kp ++ [r2])) (aa, b2) := by
  have key : ∀ (r : List Vec) (g : List Vec → Vec),
      ((kp ++ [r]).map g).take kp.length = kp.map g := by
    intro r g
    rw [List.map_append]
    have := take_len_append (kp.map g) ([r].map g)
    rwa [List.length_map] at this
  cases z with
  | false =>
    simp only [Bool.false_eq_true, if_false]
    unfold sliceB reshapeHeads
    rw [List.map_map, List.map_map]
    apply List.map_congr_left
    intro i _
    dsimp only [Function.comp]
    exact slice_eq_of_take_eq ((key r1 _).trans (key r2 _).symm) aa b2 hb2
  | true =>
    simp only [if_pos]
    unfold sliceB reshapeHeads
    rw [List.map_map, List.map_map, List.map_map, List.map_map]
    apply List.map_congr_left
    intro i _
    dsimp only [Function.comp]
    have key2 : ∀ (r : List Vec) (g : List Vec → Vec),
        ((kp ++ [r]).map g ++ [zrow]).take kp.length = kp.map g := by
      intro r g
      have h1 : kp.length ≤ ((kp ++ [r]).map g).length := by simp
      rw [List.take_append_of_le_length h1]
      exact key r g
    exact slice_eq_of_take_eq ((key2 r1 _).trans (key2 r2 _).symm) aa b2 hb2

lemma projectQKV_update_bias (M : GraphAttention) (o1 o2 : Option Vec)
    (f1 f2 : Bool) (q k v : Seq3) :
    GraphAttention.projectQKV { M with bias_k := o1, bias_v := o2 } f1 f2 q k v
      = M.projectQKV f1 f2 q k v := rfl

/-- C10: when `add_bias_kv` appends the learned sentinel key/value row,
the sentinel sits at index `sequence_length`, outside all three segment
ranges whenever `seq_split` sums to the query's sequence length, so no
segment pair ever attends to it: two calls that differ only in the
values of `bias_k` and `bias_v` return identical results. -/
theorem gsifn_C10 (M : GraphAttention) (bk1 bv1 bk2 bv2 : Vec)
    (sm : Vec → Vec) (f1 f2 : Bool) (query key value : Seq3)
    (em : Option Mat) (t vl al : ℕ) (mf : Option Mat) (d : Option String)
    (hk : key.length = query.length) (hv : value.length = query.length)
    (hsum : t + vl + al = query.length) :
    GraphAttention.forward { M with bias_k := some bk1, bias_v := some bv1 }
        sm f1 f2 query key value em (t, vl, al) mf d
      = GraphAttention.forward { M with bias_k := some bk2, bias_v := some bv2 }
        sm f1 f2 query key value em (t, vl, al) mf d := by
  unfold GraphAttention.forward GraphAttention.forwardBlocks
  rcases hsq : size3 query with ⟨a, bb, c⟩
  have ha : a = query.length := by
    have h := congrArg Prod.fst hsq
    simpa [size3] using h.symm
  dsimp only
  by_cases hc : c = M.embed_dim
  · simp only [if_pos hc]
    by_cases hkv : size3 key = size3 value
    · simp only [if_pos hkv]
      by_cases hmf : mf.isSome = true
      · simp only [if_pos hmf]
      · simp only [if_neg hmf]
        rw [projectQKV_update_bias M (some bk1) (some bv1) f1 f2 query key value,
            projectQKV_update_bias M (some bk2) (some bv2) f1 f2 query key value]
        have hkplen : (M.projectQKV f1 f2 query key value).2.1.length
            = query.length := projectQKV_k_length M f1 f2 query key value hk
        have hvplen : (M.projectQKV f1 f2 query key value).2.2.length
            = query.length := projectQKV_v_length M f1 f2 query key value hk hv
        have hsk1 := sliceB_biasAppend_congr M.num_heads M.head_dim bb
          (M.projectQKV f1 f2 query key value).2.1
          (List.replicate bb bk1) (List.replicate bb bk2) M.add_zero_attn
          (List.replicate M.head_dim 0) 0 t (by rw [hkplen]; omega)
        have hsk2 := sliceB_biasAppend_congr M.num_heads M.head_dim bb
          (M.projectQKV f1 f2 query key value).2.1
          (List.replicate bb bk1) (List.replicate bb bk2) M.add_zero_attn
          (List.replicate M.head_dim 0) t (t + vl) (by rw [hkplen]; omega)
        have hsk3 := sliceB_biasAppend_congr M.num_heads M.head_dim bb
          (M.projectQKV f1 f2 query key value).2.1
          (List.replicate bb bk1) (List.replicate bb bk2) M.add_zero_attn
          (List.replicate M.head_dim 0) (t + vl) (t + vl + al)
          (by rw [hkplen]; omega)
        have hsv1 := sliceB_biasAppend_congr M.num_heads M.head_dim bb
          (M.projectQKV f1 f2 query key value).2.2
          (List.replicate bb bv1) (List.replicate bb bv2) M.add_zero_attn
          (List.replicate M.head_dim 0) 0 t (by rw [hvplen]; omega)
        have hsv2 := sliceB_biasAppend_congr M.num_heads M.head_dim bb
          (M.projectQKV f1 f2 query key value).2.2
          (List.replicate bb bv1) (List.replicate bb bv2) M.add_zero_attn
          (List.replicate M.head_dim 0) t (t + vl) (by rw [hvplen]; omega)
        have hsv3 := sliceB_biasAppend_congr M.num_heads M.head_dim bb
          (M.projectQKV f1 f2 query key value).2.2
          (List.replicate bb bv1) (List.replicate bb bv2) M.add_zero_attn
          (List.replicate M.head_dim 0) (t + vl) (t + vl + al)
          (by rw [hvplen]; omega)
        have hseg := segScores_congr d (0, t) (t, t + vl) (t + vl, t + vl + al)
          (reshapeHeads M.num_heads M.head_dim bb
            (scaleSeq M.scaling (M.projectQKV f1 f2 query key value).1))
          hsk1 hsk2 hsk3
        rw [hseg]
        rw [segOutputs_congr d M.head_dim (0, t) (t, t + vl)
          (t + vl, t + vl + al) _ hsv1 hsv2 hsv3]
    · simp only [if_neg hkv]
  · simp only [if_neg hc]

/-- Witness for C10 at a concrete module and input: changing the sentinel
key/value vectors leaves the output unchanged. -/
theorem gsifn_C10_witness :
    GraphAttention.forward { Mex with bias_k := some [5], bias_v := some [7] }
        id false false qex qex qex none (1, 1, 1) none none
      = GraphAttention.forward { Mex with bias_k := some [2], bias_v := some [3] }
        id false false qex qex qex none (1, 1, 1) none none :=
  gsifn_C10 Mex [5] [7] [2] [3] id false false qex qex qex none 1 1 1 none none
    (by decide) (by decide) (by decide)
